import Mathlib

/-!
# Verification of the marketschema HTTP access layer

Shallow embedding of the HTTP client stack of the `marketschema` repository:

* `src/python/src/marketschema/http/client.py` — `AsyncHttpClient`
  (`get`, `_make_request_with_retry`, `_make_single_request`,
  `_raise_for_status`, `_build_cache_key`);
* `src/python/src/marketschema/http/cache.py` — `ResponseCache` (LRU + TTL);
* `src/src/marketschema/http/middleware.py` — `RetryMiddleware`,
  `RateLimitMiddleware`;
* `src/src/marketschema/http/exceptions.py` — the error taxonomy.

Modelling conventions:

* Monotonic time (`time.monotonic()`) and float durations are modelled as `ℚ`
  and passed explicitly to every operation that reads the clock.
* The network is an oracle `net : Nat → SingleResult` giving the outcome of
  the i-th network attempt of one logical request (the loop in
  `_make_request_with_retry` increments `attempt` by exactly one per call, so
  the attempt counter indexes network calls).
* Python `dict` query-parameter maps are lists of key/value pairs (values
  already rendered to strings, as the f-string `f"{k}={v}"` does); an absent
  `params` argument is `none`, an empty dict is `some []`.
* The `OrderedDict` backing the cache is a list of key/entry pairs in
  insertion/recency order, least-recently-used first; `move_to_end` and `del`
  become filter-and-append (dict keys are unique).
* Exceptions become `Except`; `while` loops over the bounded attempt counter
  become fuel recursion with fuel `max_attempts - attempt`.
-/

/-- An httpx response, reduced to the fields the client reads: status code,
body text, and the already-parsed numeric `Retry-After` header value (the
result of `_parse_retry_after`). -/
structure Response where
  status : Nat
  body : String
  retryAfter : Option ℚ := none
deriving DecidableEq

/-- httpx `Response.is_success`: `200 <= status_code <= 299`. -/
def Response.is_success (r : Response) : Bool :=
  decide (200 ≤ r.status ∧ r.status ≤ 299)

/-- httpx `Response.is_client_error`: `400 <= status_code <= 499`. -/
def Response.is_client_error (r : Response) : Bool :=
  decide (400 ≤ r.status ∧ r.status ≤ 499)

/-- httpx `Response.is_server_error`: `500 <= status_code <= 599`. -/
def Response.is_server_error (r : Response) : Bool :=
  decide (500 ≤ r.status ∧ r.status ≤ 599)

/-- The error taxonomy of `marketschema/http/exceptions.py`.
`HttpRateLimitError` is the `HttpStatusError` subclass whose status code is
the constant 429. -/
inductive HttpErr where
  | timeoutError (message url : String)
  | connectionError (message url : String)
  | statusError (message : String) (status_code : Nat) (url response_body : String)
  | rateLimitError (message url response_body : String) (retry_after : Option ℚ)
  | httpError (message url : String)
deriving DecidableEq

/-- `e.status_code` as read by the retry loop; `HttpRateLimitError` always
carries 429 (set in its `__init__`). `none` for non-status errors, which the
loop's `except HttpStatusError` clause never catches. -/
def HttpErr.statusCode : HttpErr → Option Nat
  | .statusError _ c _ _ => some c
  | .rateLimitError _ _ _ _ => some 429
  | _ => none

/-- Whether the exception is an `HttpStatusError` (including its
`HttpRateLimitError` subclass) — what `except HttpStatusError` catches. -/
def HttpErr.isStatusKind : HttpErr → Bool
  | .statusError _ _ _ _ => true
  | .rateLimitError _ _ _ _ => true
  | _ => false

/-- Transport-level failures of one attempt, before classification:
`httpx.TimeoutException`, `httpx.ConnectError`, `httpx.RequestError`. -/
inductive TransportFailure where
  | timeout (message : String)
  | connectFailed (message : String)
  | requestError (message : String)
deriving DecidableEq

/-- Outcome of one raw network attempt: a response (of any status), or a
transport failure. -/
inductive SingleResult where
  | ok (resp : Response)
  | fail (t : TransportFailure)
deriving DecidableEq

/-- The `except` clauses of `AsyncHttpClient._make_single_request`: map a
transport failure to the typed error raised to the caller. -/
def classifyTransport (t : TransportFailure) (url : String) : HttpErr :=
  match t with
  | .timeout m => .timeoutError ("Request timed out: " ++ m) url
  | .connectFailed m => .connectionError ("Connection failed: " ++ m) url
  | .requestError m => .httpError ("Request error: " ++ m) url

/-- `AsyncHttpClient._raise_for_status`: `none` when no exception is raised
(success, and also 1xx/3xx statuses, which fall through every branch),
otherwise the raised error. -/
def raise_for_status (resp : Response) (url : String) : Option HttpErr :=
  if resp.is_success then none
  else if resp.status == 429 then
    some (.rateLimitError ("Rate limit exceeded: " ++ toString resp.status)
      url resp.body resp.retryAfter)
  else if resp.is_client_error || resp.is_server_error then
    some (.statusError ("HTTP error: " ++ toString resp.status)
      resp.status url resp.body)
  else none

/-- `RETRYABLE_STATUS_CODES` from `middleware.py`. -/
def RETRYABLE_STATUS_CODES : List Nat := [429, 500, 502, 503, 504]

/-- `RetryMiddleware` configuration (the fields its decision functions read;
`backoff_factor` and `jitter` only shape the sleep durations, which the
attempt/outcome semantics does not depend on). -/
structure RetryMiddleware where
  max_retries : Nat
  retry_statuses : List Nat
deriving DecidableEq

/-- `RetryMiddleware.__init__` restricted to the retry-decision fields:
`retry_statuses` defaults to `RETRYABLE_STATUS_CODES` when `None`. -/
def RetryMiddleware.make (max_retries : Nat) (retry_statuses : Option (List Nat)) :
    RetryMiddleware :=
  ⟨max_retries, retry_statuses.getD RETRYABLE_STATUS_CODES⟩

/-- `RetryMiddleware.should_retry`. -/
def RetryMiddleware.should_retry (r : RetryMiddleware) (status_code attempt : Nat) : Bool :=
  if attempt ≥ r.max_retries then false
  else r.retry_statuses.contains status_code

/-- The `while attempt < max_attempts` loop body of
`AsyncHttpClient._make_request_with_retry`, as fuel recursion with fuel
`max_attempts - attempt` (the loop increments `attempt` by exactly one per
continuing iteration). Returns the outcome together with the number of
network attempts performed. Fuel 0 is the post-loop code: re-raise the last
exception, or the bare `HttpError("Request failed", url)`. -/
def retryLoopGo (retry : Option RetryMiddleware) (net : Nat → SingleResult) (url : String) :
    Nat → Option HttpErr → Nat → Except HttpErr Response × Nat
  | attempt, lastExc, 0 =>
    (match lastExc with
     | some e => .error e
     | none => .error (.httpError "Request failed" url), attempt)
  | attempt, lastExc, fuel + 1 =>
    match net attempt with
    | .fail t => (.error (classifyTransport t url), attempt + 1)
    | .ok resp =>
      match raise_for_status resp url with
      | none => (.ok resp, attempt + 1)
      | some e =>
        if (match retry with
            | some r => r.should_retry (e.statusCode.getD 0) attempt
            | none => false) then
          retryLoopGo retry net url (attempt + 1) (some e) fuel
        else
          (.error e, attempt + 1)

/-- `AsyncHttpClient._make_request_with_retry`:
`max_attempts = 1 + (self.retry.max_retries if self.retry else 0)`,
starting at `attempt = 0` with no saved exception. -/
def make_request_with_retry (retry : Option RetryMiddleware) (net : Nat → SingleResult)
    (url : String) : Except HttpErr Response × Nat :=
  retryLoopGo retry net url 0 none
    (1 + (match retry with | some r => r.max_retries | none => 0))

/-- Python `int()` on a rational: truncation toward zero. -/
def intTrunc (q : ℚ) : Int :=
  if 0 ≤ q then q.floor else -((-q).floor)

/-- `RateLimitMiddleware` state after `__init__`: configuration plus the
token-bucket fields `_tokens` and `_last_update`. -/
structure RateLimitMiddleware where
  requests_per_second : ℚ
  burst_size : Int
  tokens : ℚ
  last_update : ℚ
deriving DecidableEq

/-- `RateLimitMiddleware.__init__` at monotonic time `now`: validates
`requests_per_second > 0`, validates `burst_size > 0` only when it was
passed, defaults `burst_size` to `int(requests_per_second)`, and initialises
`_tokens = float(self.burst_size)`. `ValueError` becomes `Except.error`. -/
def RateLimitMiddleware.make (requests_per_second : ℚ) (burst_size : Option Int)
    (now : ℚ) : Except String RateLimitMiddleware :=
  if requests_per_second ≤ 0 then
    .error "requests_per_second must be positive"
  else
    match burst_size with
    | some b =>
      if b ≤ 0 then .error "burst_size must be positive"
      else .ok ⟨requests_per_second, b, (b : ℚ), now⟩
    | none =>
      .ok ⟨requests_per_second, intTrunc requests_per_second,
        (intTrunc requests_per_second : ℚ), now⟩

/-- A single cache entry (`CacheEntry` in `cache.py`). -/
structure CacheEntry (α : Type) where
  value : α
  expires_at : ℚ
deriving DecidableEq

/-- `ResponseCache` state: configuration plus the backing `OrderedDict`,
modelled as a list of key/entry pairs in recency order (least-recently-used
first, most-recently-used last). -/
structure ResponseCache (α : Type) where
  max_size : Nat
  default_ttl : ℚ
  entries : List (String × CacheEntry α)
deriving DecidableEq

/-- `ResponseCache.__init__`: validates `max_size > 0` and
`default_ttl > 0` (seconds), starting from an empty dict. -/
def ResponseCache.make (α : Type) (max_size : Nat) (default_ttl : ℚ) :
    Except String (ResponseCache α) :=
  if max_size ≤ 0 then .error "max_size must be positive"
  else if default_ttl ≤ 0 then .error "default_ttl must be positive"
  else .ok ⟨max_size, default_ttl, []⟩

/-- `ResponseCache.get` at monotonic time `now`: returns the looked-up value
(`None` for a miss or an expired entry) together with the updated cache state
(expired entry deleted, hit entry moved to the most-recently-used end). -/
def ResponseCache.get (c : ResponseCache α) (key : String) (now : ℚ) :
    Option α × ResponseCache α :=
  match c.entries.find? (fun p => p.1 == key) with
  | none => (none, c)
  | some p =>
    if now > p.2.expires_at then
      (none, { c with entries := c.entries.filter (fun q => q.1 != key) })
    else
      (some p.2.value,
        { c with entries := c.entries.filter (fun q => q.1 != key) ++ [p] })

/-- The `while len(self._cache) >= self.max_size: popitem(last=False)`
eviction loop of `ResponseCache.set` (the front of the list is the
least-recently-used entry). `max_size = 0` cannot arise from construction. -/
def evictWhileFull (max_size : Nat) : List (String × CacheEntry α) → List (String × CacheEntry α)
  | [] => []
  | p :: rest =>
    if max_size ≤ (p :: rest).length then evictWhileFull max_size rest
    else p :: rest

/-- `ResponseCache.set` at monotonic time `now`: computes
`expires_at = now + ttl` (`ttl` defaulting to `default_ttl`), deletes any
existing binding of the key (the filter is the identity when the key is
absent), evicts from the LRU end while at capacity, and appends the new entry
at the most-recently-used end. -/
def ResponseCache.set (c : ResponseCache α) (key : String) (value : α)
    (ttl : Option ℚ) (now : ℚ) : ResponseCache α :=
  let actual_ttl := ttl.getD c.default_ttl
  let expires_at := now + actual_ttl
  let removed := c.entries.filter (fun q => q.1 != key)
  { c with entries := evictWhileFull c.max_size removed ++ [(key, ⟨value, expires_at⟩)] }

/-- `ResponseCache.delete`: idempotent removal. -/
def ResponseCache.delete (c : ResponseCache α) (key : String) : ResponseCache α :=
  { c with entries := c.entries.filter (fun q => q.1 != key) }

/-- `ResponseCache.clear`. -/
def ResponseCache.clear (c : ResponseCache α) : ResponseCache α :=
  { c with entries := [] }

/-- A sequence of `set` operations (default TTL) over a cache, one per key,
all at the same instant. -/
def setAll : ResponseCache α → List String → (String → α) → ℚ → ResponseCache α
  | c, [], _, _ => c
  | c, k :: ks, v, now => setAll (c.set k (v k) none now) ks v now

/-- The entries of a cache that are not expired at time `now` (an entry is
expired when `now > expires_at`). -/
def liveEntries (c : ResponseCache α) (now : ℚ) : List (String × CacheEntry α) :=
  c.entries.filter (fun p => decide (now ≤ p.2.expires_at))

/-- The order in which Python's `sorted` compares the `(key, value)` items of
the params dict: lexicographic on the pair. -/
def pairLe (a b : String × String) : Prop :=
  a.1 < b.1 ∨ (a.1 = b.1 ∧ a.2 ≤ b.2)

instance : DecidableRel pairLe := fun a b => by
  unfold pairLe; infer_instance

instance : IsTotal (String × String) pairLe := by
  constructor
  intro a b
  rcases lt_trichotomy a.1 b.1 with h | h | h
  · exact Or.inl (Or.inl h)
  · rcases le_total a.2 b.2 with h2 | h2
    · exact Or.inl (Or.inr ⟨h, h2⟩)
    · exact Or.inr (Or.inr ⟨h.symm, h2⟩)
  · exact Or.inr (Or.inl h)

instance : IsTrans (String × String) pairLe := by
  constructor
  intro a b c hab hbc
  rcases hab with h1 | ⟨h1, h1v⟩
  · rcases hbc with h2 | ⟨h2, _⟩
    · exact Or.inl (lt_trans h1 h2)
    · exact Or.inl (h2 ▸ h1)
  · rcases hbc with h2 | ⟨h2, h2v⟩
    · exact Or.inl (h1 ▸ h2)
    · exact Or.inr ⟨h1.trans h2, le_trans h1v h2v⟩

instance : IsAntisymm (String × String) pairLe := by
  constructor
  intro a b hab hba
  rcases hab with h1 | ⟨h1, h1v⟩
  · rcases hba with h2 | ⟨h2, _⟩
    · exact absurd h2 (lt_asymm h1)
    · exact absurd h2.symm (ne_of_lt h1)
  · rcases hba with h2 | ⟨_, h2v⟩
    · exact absurd h2 (h1 ▸ lt_irrefl a.1)
    · exact Prod.ext h1 (le_antisymm h1v h2v)

/-- `AsyncHttpClient._build_cache_key`: `params` is `none` for an absent
argument and `some []` for an empty dict (both falsy in `if params:`);
otherwise the items are sorted (Python sorts the `(key, value)` tuples
lexicographically), rendered `k=v`, joined with `&`, and appended to the URL
after `?`. -/
def build_cache_key (url : String) (params : Option (List (String × String))) : String :=
  match params with
  | none => url
  | some ps =>
    if ps.isEmpty then url
    else
      let sorted_params := ps.insertionSort pairLe
      let param_str := String.intercalate "&" (sorted_params.map (fun p => p.1 ++ "=" ++ p.2))
      url ++ "?" ++ param_str

/-- Observable effects of one `AsyncHttpClient.get` call, in program order. -/
inductive Event where
  | acquire
  | cacheLookup (key : String) (hit : Bool)
  | netAttempt (i : Nat)
  | cacheStore (key : String)
deriving DecidableEq

/-- `AsyncHttpClient.get` at monotonic time `now`: rate-limiter acquisition
(when configured), cache lookup (when configured; a hit returns immediately),
the retry-wrapped attempt loop, and storage of a successful response.
Returns the outcome, the cache state after the call, and the effect trace. -/
def clientGet (hasRateLimiter : Bool) (cache : Option (ResponseCache Response))
    (retry : Option RetryMiddleware) (net : Nat → SingleResult) (url : String)
    (params : Option (List (String × String))) (now : ℚ) :
    Except HttpErr Response × Option (ResponseCache Response) × List Event :=
  let rlEvents : List Event := if hasRateLimiter then [Event.acquire] else []
  let cache_key := build_cache_key url params
  match cache with
  | some c =>
    match c.get cache_key now with
    | (some cached, c') =>
      (.ok cached, some c', rlEvents ++ [Event.cacheLookup cache_key true])
    | (none, c') =>
      match make_request_with_retry retry net url with
      | (.ok resp, n) =>
        if resp.is_success then
          (.ok resp, some (c'.set cache_key resp none now),
            rlEvents ++ Event.cacheLookup cache_key false
              :: ((List.range n).map Event.netAttempt ++ [Event.cacheStore cache_key]))
        else
          (.ok resp, some c',
            rlEvents ++ Event.cacheLookup cache_key false
              :: (List.range n).map Event.netAttempt)
      | (.error e, n) =>
        (.error e, some c',
          rlEvents ++ Event.cacheLookup cache_key false
            :: (List.range n).map Event.netAttempt)
  | none =>
    match make_request_with_retry retry net url with
    | (res, n) => (res, none, rlEvents ++ (List.range n).map Event.netAttempt)

/-- A timeout on the attempt the loop is at exits the loop at once, for every
retry configuration and any saved exception. -/
theorem retryLoopGo_timeout (retry : Option RetryMiddleware) (net : Nat → SingleResult)
    (url : String) (attempt : Nat) (lastExc : Option HttpErr) (fuel : Nat) (msg : String)
    (h : net attempt = SingleResult.fail (TransportFailure.timeout msg)) :
    retryLoopGo retry net url attempt lastExc (fuel + 1)
      = (.error (.timeoutError ("Request timed out: " ++ msg) url), attempt + 1) := by
  simp [retryLoopGo, h, classifyTransport]

/-- A response returned normally by the attempt loop is one on which
`_raise_for_status` raises nothing. -/
theorem retryLoopGo_ok (retry : Option RetryMiddleware) (net : Nat → SingleResult)
    (url : String) :
    ∀ (fuel attempt : Nat) (lastExc : Option HttpErr) (resp : Response) (n : Nat),
      retryLoopGo retry net url attempt lastExc fuel = (.ok resp, n) →
      raise_for_status resp url = none := by
  intro fuel
  induction fuel with
  | zero =>
    intro attempt lastExc resp n h
    cases lastExc <;> simp [retryLoopGo] at h
  | succ fuel ih =>
    intro attempt lastExc resp n h
    rw [retryLoopGo] at h
    cases hnet : net attempt <;> simp only [hnet] at h
    case fail t => simp at h
    case ok r =>
      cases hrs : raise_for_status r url <;> simp only [hrs] at h
      case none =>
        simp only [Prod.mk.injEq, Except.ok.injEq] at h
        rw [← h.1]
        exact hrs
      case some e =>
        split at h
        · exact ih _ _ _ _ h
        · simp at h

/-- If `_raise_for_status` raises nothing, the response is not 4xx/5xx. -/
theorem raise_none_not_error (resp : Response) (url : String)
    (h : raise_for_status resp url = none) :
    resp.is_client_error = false ∧ resp.is_server_error = false := by
  rw [raise_for_status] at h
  split_ifs at h with h1 h2 h3
  · simp only [Response.is_success, decide_eq_true_eq] at h1
    simp only [Response.is_client_error, Response.is_server_error, decide_eq_false_iff_not]
    omega
  · simpa using h3

/-- A plain `HttpStatusError` produced by `_raise_for_status` never carries
status 429 (which goes to `HttpRateLimitError` instead). -/
theorem raise_statusError_ne429 (resp : Response) (url m : String) (c : Nat)
    (u b : String) (h : raise_for_status resp url = some (HttpErr.statusError m c u b)) :
    c ≠ 429 := by
  rw [raise_for_status] at h
  split_ifs at h with h1 h2 h3
  · simp at h
  · simp only [Option.some.injEq, HttpErr.statusError.injEq] at h
    simp only [beq_iff_eq] at h2
    obtain ⟨hm, hc, hu, hb⟩ := h
    exact hc ▸ h2


/-- Loop invariant: if the saved exception is never a plain non-429
`HttpStatusError` with status 429, neither is the error the loop raises. -/
theorem retryLoopGo_statusError_ne429 (retry : Option RetryMiddleware)
    (net : Nat → SingleResult) (url : String) :
    ∀ (fuel attempt : Nat) (lastExc : Option HttpErr),
      (∀ m c u b, lastExc = some (HttpErr.statusError m c u b) → c ≠ 429) →
      ∀ m c u b n,
        retryLoopGo retry net url attempt lastExc fuel
          = (.error (HttpErr.statusError m c u b), n) → c ≠ 429 := by
  intro fuel
  induction fuel with
  | zero =>
    intro attempt lastExc hinv m c u b n h
    cases lastExc with
    | none => simp [retryLoopGo] at h
    | some e =>
      simp only [retryLoopGo, Prod.mk.injEq, Except.error.injEq] at h
      exact hinv m c u b (by rw [h.1])
  | succ fuel ih =>
    intro attempt lastExc hinv m c u b n h
    rw [retryLoopGo] at h
    cases hnet : net attempt <;> simp only [hnet] at h
    case fail t => cases t <;> simp [classifyTransport] at h
    case ok r =>
      cases hrs : raise_for_status r url <;> simp only [hrs] at h
      case none => simp at h
      case some e =>
        split at h
        · refine ih _ _ ?_ m c u b n h
          intro m' c' u' b' he
          exact raise_statusError_ne429 r url m' c' u' b' (hrs.trans he)
        · simp only [Prod.mk.injEq, Except.error.injEq] at h
          exact raise_statusError_ne429 r url m c u b (by rw [← h.1]; exact hrs)

/-- A 4xx/5xx response always makes `_raise_for_status` raise a status-kind
error (`HttpStatusError` or its rate-limit subclass). -/
theorem raise_some_of_bad (r : Response) (url : String)
    (h : (r.is_client_error || r.is_server_error) = true) :
    ∃ e, raise_for_status r url = some e ∧ e.isStatusKind = true := by
  have hs : r.is_success = false := by
    simp only [Response.is_client_error, Response.is_server_error, Bool.or_eq_true,
      decide_eq_true_eq] at h
    simp only [Response.is_success, decide_eq_false_iff_not]
    omega
  rw [raise_for_status, hs]
  simp only [Bool.false_eq_true, if_false]
  rw [if_pos h]
  split
  · exact ⟨_, rfl, rfl⟩
  · exact ⟨_, rfl, rfl⟩

/-- If every network attempt comes back as a 4xx/5xx response, the loop ends
in a raised status-kind error (never a normal return, never the unreachable
fallback). -/
theorem retryLoopGo_allBad (retry : Option RetryMiddleware) (net : Nat → SingleResult)
    (url : String)
    (hbad : ∀ i : Nat, ∃ r : Response,
      net i = SingleResult.ok r ∧ (r.is_client_error || r.is_server_error) = true) :
    ∀ (fuel attempt : Nat) (lastExc : Option HttpErr),
      (lastExc = none → 1 ≤ fuel) →
      (∀ e, lastExc = some e → e.isStatusKind = true) →
      ∃ e n, retryLoopGo retry net url attempt lastExc fuel = (.error e, n)
        ∧ e.isStatusKind = true := by
  intro fuel
  induction fuel with
  | zero =>
    intro attempt lastExc h0 hkind
    cases lastExc with
    | none => exact absurd (h0 rfl) (by omega)
    | some e => exact ⟨e, attempt, by simp [retryLoopGo], hkind e rfl⟩
  | succ fuel ih =>
    intro attempt lastExc h0 hkind
    obtain ⟨r, hnet, hbadr⟩ := hbad attempt
    obtain ⟨e, hrs, hkinde⟩ := raise_some_of_bad r url hbadr
    rw [retryLoopGo]
    simp only [hnet, hrs]
    split
    · refine ih (attempt + 1) (some e) (by simp) ?_
      intro e' he'
      rw [← Option.some.inj he']
      exact hkinde
    · exact ⟨e, attempt + 1, rfl, hkinde⟩

/-- C1 (counterexample): a response with status 301 — not a success (2xx) —
is returned to the caller as a normal result by the attempt loop:
`_raise_for_status` raises only for 429/4xx/5xx, so non-2xx statuses outside
4xx/5xx (1xx/3xx) are never turned into errors. -/
theorem C1_counterexample :
    make_request_with_retry none (fun _ => SingleResult.ok ⟨301, "", none⟩) "u"
      = (Except.ok ⟨301, "", none⟩, 1)
    ∧ (Response.mk 301 "" none).is_success = false :=
  ⟨rfl, rfl⟩

/-- C1 (amended): once retries are exhausted or not applicable, every 4xx/5xx
response makes `AsyncHttpClient` raise a status error — `HttpRateLimitError`
exactly when the status is 429, `HttpStatusError` otherwise — and no 4xx/5xx
response is ever returned as a normal result (responses with other non-2xx
statuses, 1xx/3xx, are returned normally). -/
theorem C1_status_errors :
    (∀ (retry : Option RetryMiddleware) (net : Nat → SingleResult) (url : String)
        (resp : Response) (n : Nat),
        make_request_with_retry retry net url = (Except.ok resp, n) →
          resp.is_client_error = false ∧ resp.is_server_error = false)
    ∧ (∀ (retry : Option RetryMiddleware) (net : Nat → SingleResult)
        (url m : String) (c : Nat) (u b : String) (n : Nat),
        make_request_with_retry retry net url
            = (Except.error (HttpErr.statusError m c u b), n) → c ≠ 429)
    ∧ (∀ (retry : Option RetryMiddleware) (net : Nat → SingleResult) (url : String),
        (∀ i : Nat, ∃ r : Response,
            net i = SingleResult.ok r ∧ (r.is_client_error || r.is_server_error) = true) →
          ∃ e n, make_request_with_retry retry net url = (Except.error e, n)
            ∧ e.isStatusKind = true) := by
  refine ⟨?_, ?_, ?_⟩
  · intro retry net url resp n h
    exact raise_none_not_error resp url (retryLoopGo_ok retry net url _ _ _ _ _ h)
  · intro retry net url m c u b n h
    exact retryLoopGo_statusError_ne429 retry net url _ _ _ (by simp) m c u b n h
  · intro retry net url hbad
    exact retryLoopGo_allBad retry net url hbad _ _ _ (fun _ => by omega) (by simp)

/-- C1 (witness): a concrete successful run — a 204 response is returned and
is neither a client nor a server error. -/
theorem C1_status_errors_witness :
    (Response.mk 204 "" none).is_client_error = false
    ∧ (Response.mk 204 "" none).is_server_error = false :=
  C1_status_errors.1 none (fun _ => SingleResult.ok ⟨204, "", none⟩) "u"
    ⟨204, "", none⟩ 1 rfl

/-- C3: `should_retry(status, attempt)` is true iff `attempt < max_retries`
and the status is in `retry_statuses`; and a client with `max_retries = 2`
and default retry statuses against an endpoint answering 503 on every attempt
performs exactly 3 network attempts and then raises `HttpStatusError` with
status code 503. -/
theorem C3_retry_exhaustion :
    (∀ (r : RetryMiddleware) (status_code attempt : Nat),
        r.should_retry status_code attempt = true ↔
          attempt < r.max_retries ∧ status_code ∈ r.retry_statuses)
    ∧ ∀ (url body : String) (retryAfter : Option ℚ),
        make_request_with_retry (some (RetryMiddleware.make 2 none))
            (fun _ => SingleResult.ok ⟨503, body, retryAfter⟩) url
          = (Except.error
              (HttpErr.statusError ("HTTP error: " ++ toString 503) 503 url body), 3) := by
  constructor
  · intro r status_code attempt
    rw [RetryMiddleware.should_retry]
    split
    · rename_i hge
      constructor
      · intro hf
        simp at hf
      · intro h
        exact absurd h.1 (by omega)
    · rename_i hlt
      rw [List.elem_iff]
      constructor
      · intro hmem
        exact ⟨by omega, hmem⟩
      · intro h
        exact h.2
  · intro url body retryAfter
    rfl

/-- C4 (code bug, evaluated at the failing input): with
`requests_per_second = 1/2` and `burst_size` omitted, construction succeeds
— no configuration error — yet `burst_size = int(0.5) = 0` and the bucket
starts with `tokens = 0`, so the capacity is not `≥ 1` and `acquire` can
never be granted, contradicting the constructor's own documented
"Must be positive" contract for `burst_size`. -/
theorem C4_code_bug_eval :
    RateLimitMiddleware.make (1/2 : ℚ) none 0
      = Except.ok ⟨1/2, 0, 0, 0⟩ := by
  have h : intTrunc (1/2 : ℚ) = 0 := by
    rw [intTrunc, if_pos (by norm_num), Rat.floor_def']
    norm_num
  rw [RateLimitMiddleware.make, if_neg (by norm_num)]
  simp only [h, Int.cast_zero]

/-- C8: a transport-level timeout is classified as `HttpTimeoutError` and is
terminal — at whatever attempt the loop has reached, and at top level on the
first attempt, it propagates immediately (one more network call, no retry),
for every retry configuration. -/
theorem C8_timeout_terminal :
    (∀ (retry : Option RetryMiddleware) (net : Nat → SingleResult) (url : String)
        (attempt : Nat) (lastExc : Option HttpErr) (fuel : Nat) (msg : String),
        net attempt = SingleResult.fail (TransportFailure.timeout msg) →
          retryLoopGo retry net url attempt lastExc (fuel + 1)
            = (Except.error (HttpErr.timeoutError ("Request timed out: " ++ msg) url),
               attempt + 1))
    ∧ ∀ (retry : Option RetryMiddleware) (net : Nat → SingleResult) (url msg : String),
        net 0 = SingleResult.fail (TransportFailure.timeout msg) →
          make_request_with_retry retry net url
            = (Except.error (HttpErr.timeoutError ("Request timed out: " ++ msg) url), 1) := by
  constructor
  · exact retryLoopGo_timeout
  · intro retry net url msg h
    unfold make_request_with_retry
    rw [Nat.add_comm]
    exact retryLoopGo_timeout retry net url 0 none _ msg h

/-- C8 (witness): a concrete timed-out request with a retry policy
configured propagates immediately after a single attempt. -/
theorem C8_timeout_terminal_witness :
    make_request_with_retry (some (RetryMiddleware.make 3 none))
        (fun _ => SingleResult.fail (TransportFailure.timeout "t")) "u"
      = (Except.error (HttpErr.timeoutError ("Request timed out: " ++ "t") "u"), 1) :=
  C8_timeout_terminal.2 (some (RetryMiddleware.make 3 none))
    (fun _ => SingleResult.fail (TransportFailure.timeout "t")) "u" "t" rfl

/-- C10: for every URL, the cache key built from an empty params map equals
the one built with no params at all — both are the bare URL — so a response
cached by one such call is found by the other. -/
theorem C10_empty_params_key (url : String) :
    build_cache_key url (some []) = build_cache_key url none
    ∧ build_cache_key url none = url :=
  ⟨rfl, rfl⟩

/-- `set` preserves the configuration fields. -/
theorem set_config {α} (c : ResponseCache α) (key : String) (value : α)
    (ttl : Option ℚ) (now : ℚ) :
    (c.set key value ttl now).max_size = c.max_size
    ∧ (c.set key value ttl now).default_ttl = c.default_ttl :=
  ⟨rfl, rfl⟩

/-- The eviction loop never touches a list shorter than the capacity. -/
theorem evictWhileFull_of_lt {α} (m : Nat) (l : List (String × CacheEntry α))
    (h : l.length < m) : evictWhileFull m l = l := by
  cases l with
  | nil => rfl
  | cons p rest => rw [evictWhileFull, if_neg (by omega)]

/-- The eviction loop stops strictly below capacity (or empties the list). -/
theorem evictWhileFull_length {α} (m : Nat) :
    ∀ l : List (String × CacheEntry α),
      evictWhileFull m l = [] ∨ (evictWhileFull m l).length < m := by
  intro l
  induction l with
  | nil => exact Or.inl rfl
  | cons p rest ih =>
    rw [evictWhileFull]
    split
    · exact ih
    · rename_i hc
      exact Or.inr (by omega)

/-- The eviction loop only drops entries. -/
theorem evictWhileFull_sublist {α} (m : Nat) :
    ∀ l : List (String × CacheEntry α), (evictWhileFull m l).Sublist l := by
  intro l
  induction l with
  | nil => exact List.Sublist.refl _
  | cons p rest ih =>
    rw [evictWhileFull]
    split
    · exact ih.trans (List.sublist_cons_self p rest)
    · exact List.Sublist.refl _

/-- Deleting an absent key is the identity. -/
theorem filter_ne_self {α} (key : String) :
    ∀ l : List (String × CacheEntry α),
      key ∉ l.map Prod.fst → l.filter (fun q => q.1 != key) = l := by
  intro l
  induction l with
  | nil => intro _; rfl
  | cons p rest ih =>
    intro h
    simp only [List.map_cons, List.mem_cons] at h
    push_neg at h
    rw [List.filter_cons, if_pos (by simp [bne_iff_ne]; exact fun he => h.1 he.symm)]
    rw [ih h.2]

/-- `set` of a fresh key on a cache strictly below capacity appends the new
entry at the most-recently-used end. -/
theorem set_fresh_small {α} (c : ResponseCache α) (key : String) (value : α)
    (ttl : Option ℚ) (now : ℚ)
    (hfresh : key ∉ c.entries.map Prod.fst) (hlen : c.entries.length < c.max_size) :
    (c.set key value ttl now).entries
      = c.entries ++ [(key, ⟨value, now + ttl.getD c.default_ttl⟩)] := by
  simp only [ResponseCache.set]
  rw [filter_ne_self key c.entries hfresh, evictWhileFull_of_lt _ _ hlen]

/-- `set` of a fresh key on a cache exactly at capacity evicts the entry at
the least-recently-used front and appends the new entry. -/
theorem set_fresh_full {α} (c : ResponseCache α) (key : String) (value : α)
    (ttl : Option ℚ) (now : ℚ)
    (hfresh : key ∉ c.entries.map Prod.fst) (hlen : c.entries.length = c.max_size)
    (hpos : 1 ≤ c.max_size) :
    (c.set key value ttl now).entries
      = c.entries.tail ++ [(key, ⟨value, now + ttl.getD c.default_ttl⟩)] := by
  simp only [ResponseCache.set]
  rw [filter_ne_self key c.entries hfresh]
  cases hc : c.entries with
  | nil =>
    rw [hc] at hlen
    simp at hlen
    omega
  | cons p rest =>
    rw [hc] at hlen
    rw [evictWhileFull, if_pos (by omega)]
    rw [evictWhileFull_of_lt _ _ (by simp at hlen; omega)]
    rfl

/-- The keys of a list of entries built from a key list are that key list. -/
theorem keys_map {α} (g : String → CacheEntry α) :
    ∀ xs : List String, (xs.map (fun k => (k, g k))).map Prod.fst = xs := by
  intro xs
  induction xs with
  | nil => rfl
  | cons x xs ih => simp [ih]

/-- `setAll` preserves the configuration fields. -/
theorem setAll_config {α} (v : String → α) (now : ℚ) :
    ∀ (ks : List String) (c : ResponseCache α),
      (setAll c ks v now).max_size = c.max_size
      ∧ (setAll c ks v now).default_ttl = c.default_ttl := by
  intro ks
  induction ks with
  | nil => intro c; exact ⟨rfl, rfl⟩
  | cons k ks ih =>
    intro c
    rw [setAll]
    exact ih (c.set k (v k) none now)

/-- `setAll` distributes over list append. -/
theorem setAll_append {α} (v : String → α) (now : ℚ) :
    ∀ (xs ys : List String) (c : ResponseCache α),
      setAll c (xs ++ ys) v now = setAll (setAll c xs v now) ys v now := by
  intro xs
  induction xs with
  | nil => intro ys c; rfl
  | cons x xs ih =>
    intro ys c
    rw [List.cons_append, setAll, setAll]
    exact ih ys _

/-- Setting a list of fresh, pairwise-distinct keys that fits in the spare
capacity appends the corresponding entries in order. -/
theorem setAll_fresh {α} (v : String → α) (now : ℚ) :
    ∀ (ks : List String) (c : ResponseCache α),
      ks.Nodup → (∀ k ∈ ks, k ∉ c.entries.map Prod.fst) →
      c.entries.length + ks.length ≤ c.max_size →
      (setAll c ks v now).entries
        = c.entries ++ ks.map (fun k => (k, ⟨v k, now + c.default_ttl⟩)) := by
  intro ks
  induction ks with
  | nil => intro c _ _ _; simp [setAll]
  | cons k ks ih =>
    intro c hnd hfresh hlen
    have h1 : (c.set k (v k) none now).entries
        = c.entries ++ [(k, ⟨v k, now + c.default_ttl⟩)] :=
      set_fresh_small c k (v k) none now (hfresh k (List.mem_cons_self k ks))
        (by simp at hlen; omega)
    rw [setAll, ih (c.set k (v k) none now) hnd.of_cons ?_ ?_]
    · rw [(set_config c k (v k) none now).2, h1]
      simp
    · intro k' hk'
      rw [h1]
      simp only [List.map_append, List.mem_append, List.map_cons, List.map_nil,
        List.mem_singleton, List.mem_cons]
      push_neg
      refine ⟨fun hmem => hfresh k' (List.mem_cons_of_mem k hk') hmem, ?_⟩
      exact ⟨fun he => (List.nodup_cons.mp hnd).1 (he ▸ hk'), List.not_mem_nil k'⟩
    · rw [h1, (set_config c k (v k) none now).1]
      simp at hlen ⊢
      omega

/-- `get` on an absent key misses. -/
theorem get_of_not_mem {α} (c : ResponseCache α) (key : String) (now : ℚ)
    (h : key ∉ c.entries.map Prod.fst) : (c.get key now).1 = none := by
  rw [ResponseCache.get]
  rw [List.find?_eq_none.mpr ?_]
  · intro p hp
    simp only [beq_iff_eq]
    intro he
    exact h (List.mem_map.mpr ⟨p, hp, he⟩)

/-- `find?` by key on entries generated from a key list finds the generated
entry of that key. -/
theorem find?_map_self {α} (g : String → CacheEntry α) (key : String) :
    ∀ xs : List String, key ∈ xs →
      (xs.map (fun k => (k, g k))).find? (fun p => p.1 == key)
        = some (key, g key) := by
  intro xs
  induction xs with
  | nil => intro h; simp at h
  | cons x xs ih =>
    intro hmem
    rw [List.map_cons]
    by_cases hx : x = key
    · subst hx
      rw [List.find?_cons_of_pos _ (by simp)]
    · rw [List.find?_cons_of_neg _ (by simp [hx])]
      exact ih (by
        rcases List.mem_cons.mp hmem with h | h
        · exact absurd h.symm hx
        · exact h)

/-- `get` on a cache whose entries all share expiry `e`, at a time not past
`e`, returns the stored value of any present key. -/
theorem get_mapped {α} (c : ResponseCache α) (rest : List String) (v : String → α)
    (e : ℚ) (now : ℚ) (k : String)
    (hc : c.entries = rest.map (fun k' => (k', ⟨v k', e⟩)))
    (hk : k ∈ rest) (hle : now ≤ e) :
    (c.get k now).1 = some (v k) := by
  rw [ResponseCache.get, hc, find?_map_self (fun k' => (⟨v k', e⟩ : CacheEntry α)) k rest hk]
  simp only
  rw [if_neg (not_lt.mpr hle)]

/-- Inserting `N+1` pairwise-distinct keys into an empty cache of capacity
`N` leaves exactly the entries of the last `N` keys: the first key — the
least-recently-used one — has been evicted. -/
theorem setAll_over_capacity {α} (N : Nat) (k0 : String) (rest : List String)
    (v : String → α) (now dttl : ℚ)
    (hN : 1 ≤ N) (hlen : rest.length = N) (hnd : (k0 :: rest).Nodup) :
    (setAll (⟨N, dttl, []⟩ : ResponseCache α) (k0 :: rest) v now).entries
      = rest.map (fun k => (k, ⟨v k, now + dttl⟩)) := by
  rcases rest.eq_nil_or_concat with rfl | ⟨rest', klast, rfl⟩
  · simp at hlen
    omega
  · rw [List.concat_eq_append] at hlen hnd ⊢
    have hlen' : rest'.length + 1 = N := by simpa using hlen
    have hnd0 : k0 ∉ rest' ++ [klast] := (List.nodup_cons.mp hnd).1
    have hndr : (rest' ++ [klast]).Nodup := (List.nodup_cons.mp hnd).2
    have hklast_rest' : klast ∉ rest' := by
      intro hmem
      exact (List.disjoint_of_nodup_append hndr) hmem (List.mem_singleton.mpr rfl)
    have hklast_k0 : klast ≠ k0 := by
      intro he
      exact hnd0 (he ▸ List.mem_append_right rest' (List.mem_singleton.mpr rfl))
    have hstep : (k0 :: (rest' ++ [klast])) = (k0 :: rest') ++ [klast] := rfl
    rw [hstep, setAll_append]
    have hA : (setAll (⟨N, dttl, []⟩ : ResponseCache α) (k0 :: rest') v now).entries
        = (k0 :: rest').map (fun k => (k, ⟨v k, now + dttl⟩)) := by
      have := setAll_fresh v now (k0 :: rest') (⟨N, dttl, []⟩ : ResponseCache α)
        ?_ (by intro k _; simp) (by simp; omega)
      · simpa using this
      · refine List.nodup_cons.mpr ⟨?_, hndr.of_append_left⟩
        intro hmem
        exact hnd0 (List.mem_append_left _ hmem)
    rw [setAll, setAll]
    have hmax : (setAll (⟨N, dttl, []⟩ : ResponseCache α) (k0 :: rest') v now).max_size = N :=
      (setAll_config v now (k0 :: rest') _).1
    have hdttl : (setAll (⟨N, dttl, []⟩ : ResponseCache α) (k0 :: rest') v now).default_ttl
        = dttl := (setAll_config v now (k0 :: rest') _).2
    rw [set_fresh_full _ klast (v klast) none now ?_ ?_ ?_]
    · rw [hA, hdttl]
      simp
    · rw [hA, keys_map]
      intro hmem
      rcases List.mem_cons.mp hmem with h | h
      · exact hklast_k0 h
      · exact hklast_rest' h
    · rw [hA, hmax]
      simp
      omega
    · rw [hmax]
      exact hN

/-- C6: after any `set` on a cache with positive capacity the entry count is
at most `max_size`; and inserting `N+1` distinct keys into an empty cache
with `max_size = N` evicts exactly the least-recently-touched (first) key:
a subsequent `get` on it misses while the other `N` keys all hit. -/
theorem C6_lru_bound (α : Type) :
    (∀ (c : ResponseCache α) (key : String) (value : α) (ttl : Option ℚ) (now : ℚ),
        1 ≤ c.max_size →
          ((c.set key value ttl now).entries).length ≤ c.max_size)
    ∧ ∀ (N : Nat) (k0 : String) (rest : List String) (v : String → α) (now dttl : ℚ),
        1 ≤ N → rest.length = N → (k0 :: rest).Nodup → 0 ≤ dttl →
        ((setAll (⟨N, dttl, []⟩ : ResponseCache α) (k0 :: rest) v now).get k0 now).1 = none
        ∧ ∀ k ∈ rest,
            ((setAll (⟨N, dttl, []⟩ : ResponseCache α) (k0 :: rest) v now).get k now).1
              = some (v k) := by
  constructor
  · intro c key value ttl now hpos
    simp only [ResponseCache.set, List.length_append, List.length_singleton]
    rcases evictWhileFull_length c.max_size (c.entries.filter (fun q => q.1 != key))
      with he | he
    · rw [he]
      simpa using hpos
    · omega
  · intro N k0 rest v now dttl hN hlen hnd hdttl
    have hentries := setAll_over_capacity N k0 rest v now dttl hN hlen hnd
    constructor
    · apply get_of_not_mem
      rw [hentries, keys_map]
      exact (List.nodup_cons.mp hnd).1
    · intro k hk
      exact get_mapped _ rest v (now + dttl) now k hentries hk (by linarith)

/-- C6 (witness): capacity 1, keys "a" then "b" — "a" is evicted, "b" hits. -/
theorem C6_lru_bound_witness :
    (((setAll (⟨1, 1, []⟩ : ResponseCache Nat) ["a", "b"] (fun _ => 7) 0).get "a" 0).1 = none)
    ∧ (((setAll (⟨1, 1, []⟩ : ResponseCache Nat) ["a", "b"] (fun _ => 7) 0).get "b" 0).1
        = some 7) := by
  have h := (C6_lru_bound Nat).2 1 "a" ["b"] (fun _ => 7) 0 1 (by norm_num) rfl
    (by simp) (by norm_num)
  exact ⟨h.1, h.2 "b" (List.mem_singleton.mpr rfl)⟩

/-- `find?` skips a prefix in which nothing matches. -/
theorem find?_append_of_none {α} (p : (String × CacheEntry α) → Bool)
    (l₂ : List (String × CacheEntry α)) :
    ∀ l₁ : List (String × CacheEntry α), l₁.find? p = none →
      (l₁ ++ l₂).find? p = l₂.find? p := by
  intro l₁
  induction l₁ with
  | nil => intro _; rfl
  | cons x l ih =>
    intro h
    cases hc : p x with
    | true =>
      rw [List.find?_cons_of_pos _ hc] at h
      exact absurd h (by simp)
    | false =>
      rw [List.find?_cons_of_neg _ (by simp [hc])] at h
      rw [List.cons_append, List.find?_cons_of_neg _ (by simp [hc])]
      exact ih h

/-- C7: `get` never returns an expired entry. After `set key value ttl` at
time `now` (with `ttl > 0`), `get key` at any `t1 ≤ now + ttl` returns the
value, and at any `t1 > now + ttl` it returns absent and removes the entry
from the cache (lazy expiry). -/
theorem C7_ttl (α : Type) (c : ResponseCache α) (key : String) (value : α)
    (ttl now t1 : ℚ) :
    0 < ttl →
    (t1 ≤ now + ttl →
      ((c.set key value (some ttl) now).get key t1).1 = some value)
    ∧ (now + ttl < t1 →
      ((c.set key value (some ttl) now).get key t1).1 = none
      ∧ ∀ p ∈ ((c.set key value (some ttl) now).get key t1).2.entries, p.1 ≠ key) := by
  intro httl
  have hfresh : key ∉ (evictWhileFull c.max_size
      (c.entries.filter (fun q => q.1 != key))).map Prod.fst := by
    intro hmem
    rcases List.mem_map.mp hmem with ⟨p, hp, hpk⟩
    have hp' : p ∈ c.entries.filter (fun q => q.1 != key) :=
      (evictWhileFull_sublist _ _).subset hp
    have hne := (List.mem_filter.mp hp').2
    rw [bne_iff_ne] at hne
    exact hne hpk
  have hentries : (c.set key value (some ttl) now).entries
      = evictWhileFull c.max_size (c.entries.filter (fun q => q.1 != key))
        ++ [(key, ⟨value, now + ttl⟩)] := rfl
  have hnone : (evictWhileFull c.max_size
      (c.entries.filter (fun q => q.1 != key))).find? (fun p => p.1 == key) = none := by
    refine List.find?_eq_none.mpr (fun p hp => ?_)
    simp only [beq_iff_eq]
    intro he
    exact hfresh (List.mem_map.mpr ⟨p, hp, he⟩)
  have hfind : ((c.set key value (some ttl) now).entries).find? (fun p => p.1 == key)
      = some (key, ⟨value, now + ttl⟩) := by
    rw [hentries, find?_append_of_none _ _ _ hnone, List.find?_cons_of_pos _ (by simp)]
  constructor
  · intro hle
    rw [ResponseCache.get, hfind]
    simp only
    rw [if_neg (not_lt.mpr hle)]
  · intro hgt
    refine ⟨?_, ?_⟩
    · rw [ResponseCache.get, hfind]
      simp only
      rw [if_pos hgt]
    · intro p hp
      rw [ResponseCache.get, hfind] at hp
      simp only at hp
      rw [if_pos hgt] at hp
      simp only at hp
      have hne := (List.mem_filter.mp hp).2
      rw [bne_iff_ne] at hne
      exact hne

/-- C7 (witness): a value set with TTL 1 at time 0 in a fresh cache is
retrievable at time 1 and gone at time 2. -/
theorem C7_ttl_witness :
    (((⟨1, 1, []⟩ : ResponseCache Nat).set "k" 7 (some 1) 0).get "k" 1).1 = some 7
    ∧ (((⟨1, 1, []⟩ : ResponseCache Nat).set "k" 7 (some 1) 0).get "k" 2).1 = none :=
  ⟨(C7_ttl Nat ⟨1, 1, []⟩ "k" 7 1 0 1 (by norm_num)).1 (by norm_num),
   ((C7_ttl Nat ⟨1, 1, []⟩ "k" 7 1 0 2 (by norm_num)).2 (by norm_num)).1⟩

/-- Network-attempt events never contain a rate-limiter acquisition. -/
theorem count_acquire_netAttempts (n : Nat) :
    ((List.range n).map Event.netAttempt).count Event.acquire = 0 :=
  List.count_eq_zero.mpr (by simp)

/-- C2: with a rate limiter and a cache configured, every `get` call's effect
trace is `acquire`, then the cache lookup on the computed key, then the
network attempts (none on a hit), then at most one cache store; and the call
consumes exactly one rate-limiter token (one `acquire`) — also on a hit. -/
theorem C2_effect_order (c : ResponseCache Response) (retry : Option RetryMiddleware)
    (net : Nat → SingleResult) (url : String) (params : Option (List (String × String)))
    (now : ℚ) :
    ∃ (hit : Bool) (n : Nat) (stored : List Event),
      (clientGet true (some c) retry net url params now).2.2
        = Event.acquire :: Event.cacheLookup (build_cache_key url params) hit
            :: ((List.range n).map Event.netAttempt ++ stored)
      ∧ (stored = [] ∨ stored = [Event.cacheStore (build_cache_key url params)])
      ∧ (hit = true → n = 0 ∧ stored = [])
      ∧ ((clientGet true (some c) retry net url params now).2.2).count Event.acquire = 1 := by
  rcases hg : ResponseCache.get c (build_cache_key url params) now with ⟨o, c''⟩
  cases o with
  | some cached =>
    refine ⟨true, 0, [], ?_, Or.inl rfl, fun _ => ⟨rfl, rfl⟩, ?_⟩
    · simp [clientGet, hg]
    · simp [clientGet, hg, List.count_cons]
  | none =>
    rcases hr : make_request_with_retry retry net url with ⟨res, n⟩
    cases res with
    | ok resp =>
      cases hs : resp.is_success with
      | true =>
        refine ⟨false, n, [Event.cacheStore (build_cache_key url params)], ?_, Or.inr rfl,
          by simp, ?_⟩
        · simp [clientGet, hg, hr, hs]
        · simp [clientGet, hg, hr, hs, List.count_cons, List.count_append,
            count_acquire_netAttempts]
      | false =>
        refine ⟨false, n, [], ?_, Or.inl rfl, by simp, ?_⟩
        · simp [clientGet, hg, hr, hs]
        · simp [clientGet, hg, hr, hs, List.count_cons, List.count_append,
            count_acquire_netAttempts]
    | error e =>
      refine ⟨false, n, [], ?_, Or.inl rfl, by simp, ?_⟩
      · simp [clientGet, hg, hr]
      · simp [clientGet, hg, hr, List.count_cons, List.count_append,
          count_acquire_netAttempts]

/-- C2 (witness): the effect trace of a concrete call through a rate limiter
and an empty cache. -/
theorem C2_effect_order_witness :
    ∃ (hit : Bool) (n : Nat) (stored : List Event),
      (clientGet true (some (⟨1, 1, []⟩ : ResponseCache Response)) none
          (fun _ => SingleResult.ok ⟨200, "", none⟩) "u" none 0).2.2
        = Event.acquire :: Event.cacheLookup (build_cache_key "u" none) hit
            :: ((List.range n).map Event.netAttempt ++ stored)
      ∧ (stored = [] ∨ stored = [Event.cacheStore (build_cache_key "u" none)])
      ∧ (hit = true → n = 0 ∧ stored = [])
      ∧ ((clientGet true (some (⟨1, 1, []⟩ : ResponseCache Response)) none
          (fun _ => SingleResult.ok ⟨200, "", none⟩) "u" none 0).2.2).count Event.acquire
          = 1 :=
  C2_effect_order ⟨1, 1, []⟩ none (fun _ => SingleResult.ok ⟨200, "", none⟩) "u" none 0

/-- With pairwise-distinct keys, the entry `find?` locates for a key is the
only entry carrying that key. -/
theorem find?_unique_key {α} (key : String) :
    ∀ l : List (String × CacheEntry α), (l.map Prod.fst).Nodup →
      ∀ p, l.find? (fun q => q.1 == key) = some p →
      ∀ q ∈ l, q.1 = key → q = p := by
  intro l
  induction l with
  | nil => intro _ p hp; simp at hp
  | cons x rest ih =>
    intro hnd p hp q hq hqk
    rw [List.map_cons, List.nodup_cons] at hnd
    cases hx : (x.1 == key) with
    | true =>
      simp only [List.find?, hx] at hp
      obtain rfl := Option.some.inj hp
      rcases List.mem_cons.mp hq with rfl | hq'
      · rfl
      · exfalso
        apply hnd.1
        rw [beq_iff_eq] at hx
        rw [hx, ← hqk]
        exact List.mem_map.mpr ⟨q, hq', rfl⟩
    | false =>
      simp only [List.find?, hx] at hp
      rcases List.mem_cons.mp hq with rfl | hq'
      · exfalso
        rw [beq_eq_false_iff_ne] at hx
        exact hx hqk
      · exact ih hnd.2 p hp q hq' hqk

/-- Deleting a key all of whose entries are already expired does not change
the set of live entries. -/
theorem filter_live_of_dead {α} (now : ℚ) (key : String) :
    ∀ l : List (String × CacheEntry α),
      (∀ q ∈ l, q.1 = key → ¬ now ≤ q.2.expires_at) →
      (l.filter (fun q => q.1 != key)).filter (fun p => decide (now ≤ p.2.expires_at))
        = l.filter (fun p => decide (now ≤ p.2.expires_at)) := by
  intro l
  induction l with
  | nil => intro _; rfl
  | cons x rest ih =>
    intro hdead
    by_cases hx : x.1 = key
    · rw [List.filter_cons_of_neg (by simp [hx]),
        List.filter_cons_of_neg
          (by simp only [decide_eq_true_eq]
              exact hdead x (List.mem_cons_self x rest) hx)]
      exact ih fun q hq => hdead q (List.mem_cons_of_mem _ hq)
    · rw [List.filter_cons_of_pos (by simp [bne_iff_ne, hx])]
      by_cases hlive : now ≤ x.2.expires_at
      · rw [List.filter_cons_of_pos (by simpa using hlive),
          List.filter_cons_of_pos (by simpa using hlive),
          ih fun q hq => hdead q (List.mem_cons_of_mem _ hq)]
      · rw [List.filter_cons_of_neg (by simpa using hlive),
          List.filter_cons_of_neg (by simpa using hlive)]
        exact ih fun q hq => hdead q (List.mem_cons_of_mem _ hq)

/-- A missing `get` (miss, or lazy expiry eviction) leaves the set of live
entries unchanged and removes at most already-present entries. -/
theorem get_none_state {α} (c : ResponseCache α) (key : String) (now : ℚ)
    (c₂ : ResponseCache α)
    (hnd : (c.entries.map Prod.fst).Nodup)
    (h : c.get key now = (none, c₂)) :
    liveEntries c₂ now = liveEntries c now ∧ c₂.entries.Sublist c.entries := by
  rw [ResponseCache.get] at h
  cases hf : c.entries.find? (fun p => p.1 == key) with
  | none =>
    rw [hf] at h
    simp only [Prod.mk.injEq] at h
    rw [← h.2]
    exact ⟨rfl, List.Sublist.refl _⟩
  | some p =>
    simp only [hf] at h
    by_cases hex : p.2.expires_at < now
    · rw [if_pos hex] at h
      simp only [Prod.mk.injEq] at h
      rw [← h.2]
      refine ⟨?_, List.filter_sublist _⟩
      simp only [liveEntries]
      apply filter_live_of_dead
      intro q hq hqk
      rw [find?_unique_key key c.entries hnd p hf q hq hqk]
      intro hle
      exact absurd hex (not_lt.mpr hle)
    · rw [if_neg hex] at h
      simp at h

/-- C9 (counterexample): a failed call can change the raw cache state. With
an already-expired entry stored under the requested key, the lookup inside
the failing call lazily evicts it, so the entry list after the (failed) call
differs from the one before. -/
theorem C9_counterexample :
    clientGet false
        (some ⟨5, 1, [("u", ⟨⟨500, "x", none⟩, 0⟩)]⟩) none
        (fun _ => SingleResult.ok ⟨500, "b", none⟩) "u" none 1
      = (Except.error (HttpErr.statusError ("HTTP error: " ++ toString 500) 500 "u" "b"),
         some ⟨5, 1, []⟩,
         [Event.cacheLookup "u" false, Event.netAttempt 0])
    ∧ (⟨5, 1, []⟩ : ResponseCache Response)
        ≠ ⟨5, 1, [("u", ⟨⟨500, "x", none⟩, 0⟩)]⟩ := by
  constructor
  · have hget : (⟨5, 1, [("u", ⟨⟨500, "x", none⟩, 0⟩)]⟩ : ResponseCache Response).get
        "u" 1 = (none, ⟨5, 1, []⟩) := by
      rw [ResponseCache.get]
      simp only [List.find?, beq_self_eq_true]
      rw [if_pos (by norm_num : (0 : ℚ) < 1)]
      simp
    have hnet : make_request_with_retry none
        (fun _ => SingleResult.ok ⟨500, "b", none⟩) "u"
        = (Except.error (HttpErr.statusError ("HTTP error: " ++ toString 500) 500 "u" "b"),
           1) := rfl
    simp only [clientGet, build_cache_key, hget, hnet]
    rw [show List.range 1 = [0] from rfl]
    rfl
  · intro h
    simp at h

/-- C9 (amended): only 2xx responses are ever stored by `AsyncHttpClient.get`.
On any call that raises an error, nothing is stored: the set of live
(unexpired) entries is exactly unchanged and the resulting entry list is a
sublist of the original — at most an already-expired entry under the
requested key is lazily evicted during the lookup — so a failed fetch never
causes a later identical request to be answered from the cache. -/
theorem C9_error_no_store (hasRL : Bool) (c : ResponseCache Response)
    (retry : Option RetryMiddleware) (net : Nat → SingleResult) (url : String)
    (params : Option (List (String × String))) (now : ℚ) (e : HttpErr)
    (c' : ResponseCache Response) (tr : List Event)
    (hnd : (c.entries.map Prod.fst).Nodup)
    (h : clientGet hasRL (some c) retry net url params now = (.error e, some c', tr)) :
    liveEntries c' now = liveEntries c now ∧ c'.entries.Sublist c.entries := by
  simp only [clientGet] at h
  rcases hg : ResponseCache.get c (build_cache_key url params) now with ⟨o, c''⟩
  simp only [hg] at h
  cases o with
  | some cached => simp at h
  | none =>
    rcases hr : make_request_with_retry retry net url with ⟨res, n⟩
    simp only [hr] at h
    cases res with
    | ok resp =>
      cases hs : resp.is_success with
      | true => simp [hs] at h
      | false => simp [hs] at h
    | error e' =>
      simp only [Prod.mk.injEq, Except.error.injEq, Option.some.injEq] at h
      rw [← h.2.1]
      exact get_none_state c (build_cache_key url params) now c'' hnd hg

/-- C9 (witness): a concrete failing call against an empty cache leaves the
live entries (and the entry list) unchanged. -/
theorem C9_error_no_store_witness :
    liveEntries (⟨5, 1, []⟩ : ResponseCache Response) 0
      = liveEntries (⟨5, 1, []⟩ : ResponseCache Response) 0
    ∧ ((⟨5, 1, []⟩ : ResponseCache Response).entries).Sublist
        ((⟨5, 1, []⟩ : ResponseCache Response).entries) :=
  C9_error_no_store false ⟨5, 1, []⟩ none
    (fun _ => SingleResult.ok ⟨500, "b", none⟩) "u" none 0
    (HttpErr.statusError ("HTTP error: " ++ toString 500) 500 "u" "b")
    ⟨5, 1, []⟩ [Event.cacheLookup "u" false, Event.netAttempt 0]
    (by simp) rfl

/-- Sorting by the pair order is invariant under permutation of the items:
the relation is total, transitive and antisymmetric, so any two sorted
permutations coincide. -/
theorem sort_perm_eq (ps qs : List (String × String)) (h : ps.Perm qs) :
    ps.insertionSort pairLe = qs.insertionSort pairLe :=
  List.eq_of_perm_of_sorted
    ((List.perm_insertionSort pairLe ps).trans
      (h.trans (List.perm_insertionSort pairLe qs).symm))
    (List.sorted_insertionSort pairLe ps) (List.sorted_insertionSort pairLe qs)

/-- The concrete key ordering fact used by the scenario keys. -/
theorem string_lt_ab : ("a" : String) < "b" :=
  String.lt_iff_toList_lt.mpr (by decide)

/-- C5 (counterexample): two parameter maps over the same key set {a, b}
that differ in the value of "a" (and of "b") can produce the same cache key,
because values are joined unescaped with `&` and `=`. -/
theorem C5_counterexample :
    build_cache_key "u" (some [("a", "1&b=2"), ("b", "2")])
      = build_cache_key "u" (some [("a", "1"), ("b", "2&b=2")])
    ∧ ("1&b=2" : String) ≠ "1" ∧ ("2" : String) ≠ "2&b=2" := by
  refine ⟨?_, by decide, by decide⟩
  have hs1 : List.insertionSort pairLe [("a", "1&b=2"), ("b", "2")]
      = [("a", "1&b=2"), ("b", "2")] := by
    simp only [List.insertionSort, List.orderedInsert]
    have h1 : pairLe ("a", "1&b=2") ("b", "2") := Or.inl string_lt_ab
    rw [if_pos h1]
  have hs2 : List.insertionSort pairLe [("a", "1"), ("b", "2&b=2")]
      = [("a", "1"), ("b", "2&b=2")] := by
    simp only [List.insertionSort, List.orderedInsert]
    have h2 : pairLe ("a", "1") ("b", "2&b=2") := Or.inl string_lt_ab
    rw [if_pos h2]
  simp only [build_cache_key, List.isEmpty_cons, Bool.false_eq_true, if_false]
  rw [hs1, hs2]
  decide

/-- C5 (amended): the cache key is independent of the parameter map's
insertion order — any two maps holding the same key/value pairs yield the
same key — and the spec's concrete distinctness example holds for every URL:
`{a:1, b:2}` and `{a:1, b:3}` give different keys. General value-injectivity
fails when values contain the separators `&` or `=` (see the
counterexample). -/
theorem C5_cache_key :
    (∀ (url : String) (ps qs : List (String × String)), ps.Perm qs →
        build_cache_key url (some ps) = build_cache_key url (some qs))
    ∧ ∀ url : String,
        build_cache_key url (some [("a", "1"), ("b", "2")])
          ≠ build_cache_key url (some [("a", "1"), ("b", "3")]) := by
  constructor
  · intro url ps qs hperm
    have hiff : ps.isEmpty = qs.isEmpty := by
      cases ps <;> cases qs <;> simp_all
    simp only [build_cache_key]
    rw [hiff]
    cases hqs : qs.isEmpty with
    | true => rfl
    | false => rw [sort_perm_eq ps qs hperm]
  · intro url
    have hs2 : List.insertionSort pairLe [("a", "1"), ("b", "2")]
        = [("a", "1"), ("b", "2")] := by
      simp only [List.insertionSort, List.orderedInsert]
      have h2 : pairLe ("a", "1") ("b", "2") := Or.inl string_lt_ab
      rw [if_pos h2]
    have hs3 : List.insertionSort pairLe [("a", "1"), ("b", "3")]
        = [("a", "1"), ("b", "3")] := by
      simp only [List.insertionSort, List.orderedInsert]
      have h3 : pairLe ("a", "1") ("b", "3") := Or.inl string_lt_ab
      rw [if_pos h3]
    simp only [build_cache_key, List.isEmpty_cons, Bool.false_eq_true, if_false]
    rw [hs2, hs3]
    rw [show String.intercalate "&"
        (List.map (fun p => p.1 ++ "=" ++ p.2) [("a", "1"), ("b", "2")]) = "a=1&b=2"
      from by decide]
    rw [show String.intercalate "&"
        (List.map (fun p => p.1 ++ "=" ++ p.2) [("a", "1"), ("b", "3")]) = "a=1&b=3"
      from by decide]
    intro he
    have hd := congrArg String.data he
    have hcancel : ("a=1&b=2" : String).data = ("a=1&b=3" : String).data :=
      List.append_cancel_left
        (show (url ++ "?").data ++ ("a=1&b=2" : String).data
            = (url ++ "?").data ++ ("a=1&b=3" : String).data from hd)
    exact absurd hcancel (by decide)

/-- C5 (witness): order-independence and distinctness at concrete maps. -/
theorem C5_cache_key_witness :
    build_cache_key "u" (some [("b", "2"), ("a", "1")])
      = build_cache_key "u" (some [("a", "1"), ("b", "2")])
    ∧ build_cache_key "u" (some [("a", "1"), ("b", "2")])
      ≠ build_cache_key "u" (some [("a", "1"), ("b", "3")]) :=
  ⟨C5_cache_key.1 "u" [("b", "2"), ("a", "1")] [("a", "1"), ("b", "2")]
      (List.Perm.swap ("a", "1") ("b", "2") []),
   C5_cache_key.2 "u"⟩
